import Mathlib

/-!
Verification of the folder-name parsing, state-tracking and normalization
core of the `botanical_auto_uploader` repository, as a shallow embedding in
Lean 4.

Modelling conventions:
* Python strings are `List Char` (`PyStr`); string literals are written
  `"...".toList`.
* Python `float` values are exact decimal fractions `PyFloat` (an unreduced
  numerator/denominator pair).  The claims treat prices as exact decimal
  numbers, so IEEE-754 rounding is irrelevant and is not modelled.
* Python's `str.strip`/`str.lower` are modelled on ASCII (Unicode-only
  whitespace and case mappings do not occur in any claim).
* Python operations that can raise inside a `try/except` (`float(...)`,
  `json.load`, the `folders`-key fixup) are modelled by their handler's
  result; the one uncaught error path in the traced code — the `IndexError`
  of `parts[0]` in `core/folder_utils.parse_folder_name` when every hyphen
  token strips to empty — is modelled as an `Option` result of `none`.
-/

/-- Python strings, modelled as their list of characters. -/
abbrev PyStr := List Char

/-- Python float value as an exact (unreduced) fraction `num / den`.
The float parser below only produces denominators of the form `10 ^ k`. -/
structure PyFloat where
  num : Int
  den : Nat
  deriving Repr, DecidableEq

/-- Rational value of a `PyFloat`. -/
def PyFloat.val (q : PyFloat) : ℚ := (q.num : ℚ) / (q.den : ℚ)

/-- Whitespace test used by Python's `str.strip()` (ASCII whitespace:
space, tab, newline, carriage return, vertical tab, form feed). -/
def pyIsSpace (c : Char) : Bool :=
  decide (c.toNat = 32 ∨ c.toNat = 9 ∨ c.toNat = 10 ∨ c.toNat = 13 ∨
          c.toNat = 11 ∨ c.toNat = 12)

/-- Python `s.strip()`: drop whitespace from both ends. -/
def pyStrip (s : PyStr) : PyStr :=
  ((s.dropWhile pyIsSpace).reverse.dropWhile pyIsSpace).reverse

/-- The string has no whitespace character at all. -/
def wsFree (s : PyStr) : Prop := ∀ c ∈ s, pyIsSpace c = false

instance (s : PyStr) : Decidable (wsFree s) := by
  unfold wsFree; infer_instance

/-- Numeric value of a digit string (most significant digit first). -/
def digitsToNat (ds : PyStr) : Nat :=
  ds.foldl (fun a c => 10 * a + (c.toNat - 48)) 0

/-- Unsigned part of Python's `float(s)` parser on plain decimal literals:
digit run, optionally followed by a point and a digit run, at least one digit
in total.  (Exponents, `inf`/`nan` and `_` digit separators are accepted by
Python but not modelled; no claim depends on them.) -/
def parseDecMag (s : PyStr) : Option PyFloat :=
  let ip := s.takeWhile Char.isDigit
  let rest := s.dropWhile Char.isDigit
  match rest with
  | [] => if ip = [] then none else some ⟨(digitsToNat ip : Int), 1⟩
  | '.' :: fr =>
    if fr.all Char.isDigit && !(ip = [] && fr = []) then
      some ⟨(digitsToNat ip * 10 ^ fr.length + digitsToNat fr : Int), 10 ^ fr.length⟩
    else none
  | _ => none

/-- Python `float(s)` on decimal literals: strip surrounding whitespace,
optional sign, then an unsigned decimal literal; `none` models the
`ValueError` branch. -/
def parsePyFloat (s : PyStr) : Option PyFloat :=
  match pyStrip s with
  | '+' :: r => parseDecMag r
  | '-' :: r => (parseDecMag r).map (fun q => ⟨-q.num, q.den⟩)
  | t => parseDecMag t

/-- Python `s.split(sep)`: split on every occurrence, keeping empty pieces. -/
def pySplit (sep : Char) : PyStr → List PyStr
  | [] => [[]]
  | c :: rest =>
    if c = sep then [] :: pySplit sep rest
    else
      match pySplit sep rest with
      | [] => [[c]]
      | t :: ts => (c :: t) :: ts

/-- Split at the first occurrence of `sep` (`none` when `sep` does not occur). -/
def splitFirst (sep : Char) : PyStr → Option (PyStr × PyStr)
  | [] => none
  | c :: rest =>
    if c = sep then some ([], rest)
    else (splitFirst sep rest).map (fun q => (c :: q.1, q.2))

/-- Split at the last occurrence of `sep` (`none` when `sep` does not occur).
This models both `name.rsplit(sep, 1)` guarded by `sep in name`
(folder_utils.py line 20) and `name.rpartition(sep)` whose middle component
tells whether `sep` occurred (processor.py line 31). -/
def lastSplit (sep : Char) : PyStr → Option (PyStr × PyStr)
  | [] => none
  | c :: rest =>
    match lastSplit sep rest with
    | some q => some (c :: q.1, q.2)
    | none => if c = sep then some ([], rest) else none

/-- Python `s.split(sep, 2)`: at most two splits; all further occurrences of
`sep` stay inside the third piece. -/
def pySplit2 (sep : Char) (s : PyStr) : List PyStr :=
  match splitFirst sep s with
  | none => [s]
  | some (a, r) =>
    match splitFirst sep r with
    | none => [a, r]
    | some (b, r2) => [a, b, r2]

/-- Python `sep.join(parts)` for a one-character separator. -/
def joinSep (sep : Char) : List PyStr → PyStr
  | [] => []
  | [t] => t
  | t :: t' :: ts => t ++ sep :: joinSep sep (t' :: ts)

/-- Result of folder-name parsing: the quadruple
`(product_type, materials_str, series, price)` returned as a tuple by
`core/folder_utils.parse_folder_name` and as a dict (with key
`materials_raw` for the second component) by
`pipeline/processor.parse_folder_name`. -/
structure ParsedFolderName where
  product_type : PyStr
  materials_str : PyStr
  series : PyStr
  price : Option PyFloat
  deriving Repr, DecidableEq

namespace FolderUtils

/-- Token-count dispatch of `core/folder_utils.parse_folder_name`
(folder_utils.py lines 36-49) on the cleaned hyphen tokens:
one token is the series alone; two are `(product_type, materials)`; with
three or more the first is `product_type`, the last is `series`, and the
middle tokens are rejoined with hyphens as `materials_str`.  The `else`
branch of the source also catches an empty token list, where `parts[0]`
(folder_utils.py line 47) raises `IndexError`; that uncaught error path is
modelled as `none`. -/
def dispatchTokens : List PyStr → Option (PyStr × PyStr × PyStr)
  | [] => none
  | [a] => some ([], [], a)
  | [a, b] => some (a, b, [])
  | a :: b :: c :: rest =>
    some (a, joinSep '-' ((b :: c :: rest).dropLast), rest.getLastD c)

/-- Cleaning of the hyphen pieces (folder_utils.py line 34):
strip each piece and drop the ones that strip to empty. -/
def cleanTokens (parts : List PyStr) : List PyStr :=
  (parts.map pyStrip).filter (· ≠ [])

/-- Hyphen stage of `core/folder_utils.parse_folder_name`
(folder_utils.py lines 31-49): split the left segment on hyphens, clean,
dispatch on the token count (`none` models the `IndexError` raised when
every piece strips to empty). -/
def parseLeft (left : PyStr) : Option (PyStr × PyStr × PyStr) :=
  dispatchTokens (cleanTokens (pySplit '-' left))

/-- The parser `core/folder_utils.parse_folder_name`
(folder_utils.py lines 8-51): split price off at the last underscore
(if any), strip it and attempt a float parse (a `ValueError` there is caught
and gives price `none`), then run the hyphen stage on the left segment.
The overall `none` models the uncaught `IndexError` of the hyphen stage. -/
def parse_folder_name (name : PyStr) : Option ParsedFolderName :=
  match lastSplit '_' name with
  | some (left, pricePart) =>
    (parseLeft left).map
      (fun q => ⟨q.1, q.2.1, q.2.2, parsePyFloat (pyStrip pricePart)⟩)
  | none =>
    (parseLeft name).map (fun q => ⟨q.1, q.2.1, q.2.2, none⟩)

end FolderUtils

namespace Processor

/-- The parser `pipeline/processor.parse_folder_name`
(processor.py lines 21-53): strip the whole name, split the price off at the
last underscore via `rpartition`, then split the base part on at most the
first two hyphens (`split("-", 2)`) and strip the up-to-three pieces. -/
def parse_folder_name (name : PyStr) : ParsedFolderName :=
  let stripped := pyStrip name
  let bp : PyStr × Option PyFloat :=
    match lastSplit '_' stripped with
    | some (base, pricePart) => (base, parsePyFloat pricePart)
    | none => (stripped, none)
  let parts := pySplit2 '-' bp.1
  ⟨pyStrip (parts.getD 0 []), pyStrip (parts.getD 1 []),
   pyStrip (parts.getD 2 []), bp.2⟩

end Processor

/-! Lemmas about the string utilities. -/

theorem pySplit_of_not_mem {sep : Char} {s : PyStr} (h : sep ∉ s) :
    pySplit sep s = [s] := by
  induction s with
  | nil => rfl
  | cons c rest ih =>
    have hc : ¬ c = sep := fun e => h (e ▸ List.mem_cons_self c rest)
    simp only [pySplit, if_neg hc, ih (fun hm => h (List.mem_cons_of_mem c hm))]

theorem pySplit_append {sep : Char} {a b : PyStr} (h : sep ∉ a) :
    pySplit sep (a ++ sep :: b) = a :: pySplit sep b := by
  induction a with
  | nil => simp [pySplit]
  | cons c a' ih =>
    have hc : ¬ c = sep := fun e => h (e ▸ List.mem_cons_self c a')
    have ih' := ih (fun hm => h (List.mem_cons_of_mem c hm))
    simp only [List.cons_append, pySplit, if_neg hc]
    rw [show a'.append (sep :: b) = a' ++ sep :: b from rfl, ih']

theorem pySplit_joinSep {sep : Char} {ts : List PyStr}
    (h : ∀ t ∈ ts, sep ∉ t) (hne : ts ≠ []) :
    pySplit sep (joinSep sep ts) = ts := by
  induction ts with
  | nil => exact absurd rfl hne
  | cons t ts' ih =>
    cases ts' with
    | nil => exact pySplit_of_not_mem (h t (List.mem_cons_self t []))
    | cons t2 ts'' =>
      rw [joinSep, pySplit_append (h t (List.mem_cons_self t _)),
        ih (fun u hu => h u (List.mem_cons_of_mem t hu)) (by simp)]

theorem mem_joinSep {sep : Char} {ts : List PyStr} {c : Char}
    (hc : c ∈ joinSep sep ts) : c = sep ∨ ∃ t ∈ ts, c ∈ t := by
  induction ts with
  | nil => simp [joinSep] at hc
  | cons t ts' ih =>
    cases ts' with
    | nil => exact Or.inr ⟨t, List.mem_cons_self t [], hc⟩
    | cons t2 ts'' =>
      rw [joinSep] at hc
      rcases List.mem_append.mp hc with h1 | h2
      · exact Or.inr ⟨t, List.mem_cons_self t _, h1⟩
      · rcases List.mem_cons.mp h2 with h3 | h4
        · exact Or.inl h3
        · rcases ih h4 with h5 | ⟨u, hu, hcu⟩
          · exact Or.inl h5
          · exact Or.inr ⟨u, List.mem_cons_of_mem t hu, hcu⟩

theorem splitFirst_of_not_mem {sep : Char} {s : PyStr} (h : sep ∉ s) :
    splitFirst sep s = none := by
  induction s with
  | nil => rfl
  | cons c rest ih =>
    have hc : ¬ c = sep := fun e => h (e ▸ List.mem_cons_self c rest)
    simp only [splitFirst, if_neg hc,
      ih (fun hm => h (List.mem_cons_of_mem c hm)), Option.map_none']

theorem splitFirst_append {sep : Char} {a b : PyStr} (h : sep ∉ a) :
    splitFirst sep (a ++ sep :: b) = some (a, b) := by
  induction a with
  | nil => simp [splitFirst]
  | cons c a' ih =>
    have hc : ¬ c = sep := fun e => h (e ▸ List.mem_cons_self c a')
    have ih' := ih (fun hm => h (List.mem_cons_of_mem c hm))
    simp only [List.cons_append, splitFirst, if_neg hc]
    rw [show a'.append (sep :: b) = a' ++ sep :: b from rfl, ih', Option.map_some']

theorem lastSplit_of_not_mem {sep : Char} {s : PyStr} (h : sep ∉ s) :
    lastSplit sep s = none := by
  induction s with
  | nil => rfl
  | cons c rest ih =>
    have hc : ¬ c = sep := fun e => h (e ▸ List.mem_cons_self c rest)
    simp only [lastSplit, ih (fun hm => h (List.mem_cons_of_mem c hm)), if_neg hc]

theorem lastSplit_append {sep : Char} {l r : PyStr} (h : sep ∉ r) :
    lastSplit sep (l ++ sep :: r) = some (l, r) := by
  induction l with
  | nil => simp [lastSplit, lastSplit_of_not_mem h]
  | cons c l' ih =>
    simp only [List.cons_append, lastSplit]
    rw [show l'.append (sep :: r) = l' ++ sep :: r from rfl, ih]

theorem dropWhile_idem (p : Char → Bool) (l : List Char) :
    List.dropWhile p (List.dropWhile p l) = List.dropWhile p l := by
  induction l with
  | nil => rfl
  | cons c t ih =>
    by_cases hc : p c
    · simp [List.dropWhile_cons, hc, ih]
    · simp [List.dropWhile_cons, hc]

theorem dropWhile_eq_cons_head {p : Char → Bool} {l r : List Char} {c : Char}
    (h : List.dropWhile p l = c :: r) : p c = false := by
  induction l with
  | nil => simp at h
  | cons a t ih =>
    by_cases ha : p a
    · rw [List.dropWhile_cons_of_pos ha] at h; exact ih h
    · rw [List.dropWhile_cons_of_neg ha] at h
      cases h
      simpa using ha

theorem pyStrip_of_wsFree {s : PyStr} (h : wsFree s) : pyStrip s = s := by
  have h1 : s.dropWhile pyIsSpace = s := by
    cases s with
    | nil => rfl
    | cons c t =>
      rw [List.dropWhile_cons_of_neg (by simp [h c (List.mem_cons_self c t)])]
  have h2 : s.reverse.dropWhile pyIsSpace = s.reverse := by
    cases hs : s.reverse with
    | nil => rfl
    | cons c t =>
      have hc : c ∈ s := by
        rw [← List.mem_reverse, hs]; exact List.mem_cons_self c t
      rw [List.dropWhile_cons_of_neg (by simp [h c hc])]
  unfold pyStrip
  rw [h1, h2, List.reverse_reverse]

theorem pyStrip_pyStrip (s : PyStr) : pyStrip (pyStrip s) = pyStrip s := by
  unfold pyStrip
  set p := pyIsSpace with hp
  set u := s.dropWhile p with hu
  set t := (u.reverse.dropWhile p).reverse with ht
  have htu : t <+: u := by
    rw [← List.reverse_suffix, ht, List.reverse_reverse]
    exact ⟨u.reverse.takeWhile p, List.takeWhile_append_dropWhile p u.reverse⟩
  have hA : t.dropWhile p = t := by
    cases hc : t with
    | nil => simp
    | cons c t' =>
      obtain ⟨w, hw⟩ := htu
      rw [hc] at hw
      have hr : u = c :: (t' ++ w) := by rw [← hw]; simp
      have hds : List.dropWhile p s = c :: (t' ++ w) := by rw [← hu, hr]
      have hpc : p c = false := dropWhile_eq_cons_head hds
      rw [List.dropWhile_cons_of_neg (by simp [hpc])]
  rw [hA]
  have hB : t.reverse.dropWhile p = t.reverse := by
    rw [ht, List.reverse_reverse]
    exact dropWhile_idem p u.reverse
  rw [hB, ht, List.reverse_reverse]

theorem parsePyFloat_pyStrip (s : PyStr) :
    parsePyFloat (pyStrip s) = parsePyFloat s := by
  unfold parsePyFloat
  rw [pyStrip_pyStrip]

theorem wsFree_append {a b : PyStr} (ha : wsFree a) (hb : wsFree b) :
    wsFree (a ++ b) := by
  intro c hc
  rcases List.mem_append.mp hc with h | h
  · exact ha c h
  · exact hb c h

theorem wsFree_cons {c : Char} {s : PyStr} (hc : pyIsSpace c = false)
    (hs : wsFree s) : wsFree (c :: s) := by
  intro d hd
  rcases List.mem_cons.mp hd with h | h
  · exact h ▸ hc
  · exact hs d h

/-! Evaluation lemmas for the two parsers. -/

theorem FolderUtils.parse_eq_of_lastSplit_some {name l pr : PyStr}
    (h : lastSplit '_' name = some (l, pr)) :
    FolderUtils.parse_folder_name name =
      (FolderUtils.parseLeft l).map
        (fun q => ⟨q.1, q.2.1, q.2.2, parsePyFloat (pyStrip pr)⟩) := by
  unfold FolderUtils.parse_folder_name
  rw [h]

theorem Processor.parse_eq_of_strip_lastSplit_some {name l pr : PyStr}
    (h : lastSplit '_' (pyStrip name) = some (l, pr)) :
    Processor.parse_folder_name name =
      ⟨pyStrip ((pySplit2 '-' l).getD 0 []), pyStrip ((pySplit2 '-' l).getD 1 []),
        pyStrip ((pySplit2 '-' l).getD 2 []), parsePyFloat pr⟩ := by
  simp only [Processor.parse_folder_name]
  rw [h]

theorem map_pyStrip_of_stable {ts : List PyStr} (h : ∀ t ∈ ts, pyStrip t = t) :
    ts.map pyStrip = ts := by
  induction ts with
  | nil => rfl
  | cons t ts' ih =>
    rw [List.map_cons, h t (List.mem_cons_self t ts'),
      ih (fun u hu => h u (List.mem_cons_of_mem t hu))]

/-! Claims C1, C2, C9, C10: the folder-name parsers. -/

/-- C1 (amended): for every folder name assembled as
`{t1}-{t2}-...-{tn}_{price}` from at least three clean hyphen tokens
(non-empty, strip-stable, hyphen- and underscore-free) and a price string
that float-parses, `core/folder_utils.parse_folder_name` returns the first
token as `product_type`, the last as `series`, the middle tokens rejoined
with hyphens as `materials_str`, and the parsed numeric price.
(The `pipeline/processor` variant instead puts every token beyond the second
into `series`; see the counterexample.) -/
theorem claim_C1 (a b c : PyStr) (rest : List PyStr) (ps : PyStr) (q : PyFloat)
    (hts : ∀ t ∈ a :: b :: c :: rest, t ≠ [] ∧ pyStrip t = t ∧ '-' ∉ t ∧ '_' ∉ t)
    (hp : '_' ∉ ps) (hq : parsePyFloat ps = some q) :
    FolderUtils.parse_folder_name (joinSep '-' (a :: b :: c :: rest) ++ '_' :: ps) =
      some ⟨a, joinSep '-' ((b :: c :: rest).dropLast), rest.getLastD c, some q⟩ := by
  have hclean : FolderUtils.cleanTokens (a :: b :: c :: rest) = a :: b :: c :: rest := by
    unfold FolderUtils.cleanTokens
    rw [map_pyStrip_of_stable (fun t ht => (hts t ht).2.1)]
    exact List.filter_eq_self.mpr (fun t ht => by simp [(hts t ht).1])
  have hleft : FolderUtils.parseLeft (joinSep '-' (a :: b :: c :: rest)) =
      some (a, joinSep '-' ((b :: c :: rest).dropLast), rest.getLastD c) := by
    unfold FolderUtils.parseLeft
    rw [pySplit_joinSep (fun t ht => (hts t ht).2.2.1) (by simp), hclean]
    rfl
  rw [FolderUtils.parse_eq_of_lastSplit_some (lastSplit_append hp), hleft,
    Option.map_some', parsePyFloat_pyStrip, hq]

/-- C1 witness: the spec scenario
`necklace-pinecone-whiteberry-hillseries_39.9` parsed by
`core/folder_utils.parse_folder_name`, via `claim_C1`. -/
theorem claim_C1_witness :
    FolderUtils.parse_folder_name "necklace-pinecone-whiteberry-hillseries_39.9".toList =
      some ⟨"necklace".toList, "pinecone-whiteberry".toList, "hillseries".toList,
        some ⟨399, 10⟩⟩ :=
  claim_C1 "necklace".toList "pinecone".toList "whiteberry".toList
    ["hillseries".toList] "39.9".toList ⟨399, 10⟩
    (by decide) (by decide) (by decide)

/-- C1 counterexample: `pipeline/processor.parse_folder_name` — the variant
the pipeline's context builder actually calls — does not return the claimed
components at the spec's own scenario input: it yields
`materials_raw = "pinecone"` and `series = "whiteberry-hillseries"`. -/
theorem claim_C1_counterexample :
    Processor.parse_folder_name "necklace-pinecone-whiteberry-hillseries_39.9".toList =
        ⟨"necklace".toList, "pinecone".toList, "whiteberry-hillseries".toList,
          some ⟨399, 10⟩⟩ ∧
      Processor.parse_folder_name "necklace-pinecone-whiteberry-hillseries_39.9".toList ≠
        ⟨"necklace".toList, "pinecone-whiteberry".toList, "hillseries".toList,
          some ⟨399, 10⟩⟩ := by
  constructor
  · decide
  · decide

/-- C2 (amended): when the name contains an underscore, the segment after
the last underscore fails the float parse, and the part before that
underscore has at least one non-empty hyphen token (so the hyphen stage
succeeds — with no surviving token the code instead raises `IndexError`, see
C9), `core/folder_utils.parse_folder_name` returns `price = none` and
hyphen-splits only the part before that underscore — the unparsed suffix is
discarded, not retained. -/
theorem claim_C2 (l ps : PyStr) (tms : PyStr × PyStr × PyStr)
    (hp : '_' ∉ ps) (hfail : parsePyFloat ps = none)
    (hl : FolderUtils.parseLeft l = some tms) :
    FolderUtils.parse_folder_name (l ++ '_' :: ps) =
      some ⟨tms.1, tms.2.1, tms.2.2, none⟩ := by
  rw [FolderUtils.parse_eq_of_lastSplit_some (lastSplit_append hp), hl,
    Option.map_some', parsePyFloat_pyStrip, hfail]

/-- C2 witness: `a-b_c` has an unparsable price suffix; the parser keeps only
`a-b` as the left segment, via `claim_C2`. -/
theorem claim_C2_witness :
    FolderUtils.parse_folder_name "a-b_c".toList =
      some ⟨"a".toList, "b".toList, [], none⟩ :=
  claim_C2 "a-b".toList "c".toList ("a".toList, "b".toList, [])
    (by decide) (by decide) (by decide)

/-- C2 counterexample: at `a-b_c` the underscore is present and the suffix
fails numeric parsing, yet the parser's result differs from hyphen-splitting
the entire original string (which would give `materials_str = "b_c"`): the
suffix after the underscore is dropped, refuting the claim as stated. -/
theorem claim_C2_counterexample :
    ('_' ∈ "a-b_c".toList ∧ parsePyFloat (pyStrip "c".toList) = none) ∧
      FolderUtils.parse_folder_name "a-b_c".toList ≠
        (FolderUtils.parseLeft "a-b_c".toList).map
          (fun q => ⟨q.1, q.2.1, q.2.2, none⟩) := by
  refine ⟨⟨?_, ?_⟩, ?_⟩
  · decide
  · decide
  · decide

/-- C9 (the code contradicts the claim — code bug): on an input whose hyphen
tokens all strip to empty, such as `" -"` or the empty string, the cleaned
token list is empty, the token-count dispatch falls through to its `else`
branch and `parts[0]` raises an uncaught `IndexError`
(folder_utils.py line 47) — modelled as the overall result `none` — instead
of returning empty fields and `price = None` as the spec states. -/
theorem claim_C9 :
    FolderUtils.parse_folder_name " -".toList = none ∧
      FolderUtils.parse_folder_name "".toList = none := by
  constructor
  · decide
  · decide

/-- C10 (amended): the two folder-name parsers agree on every name of the
shape `{t}-{m}-{s}_{p}` whose three tokens are non-empty and free of hyphens,
underscores and whitespace, and whose price part is free of underscores and
whitespace.  (In general they disagree; see the counterexample.) -/
theorem claim_C10 (t m s p : PyStr)
    (ht : t ≠ [] ∧ '-' ∉ t ∧ '_' ∉ t ∧ wsFree t)
    (hm : m ≠ [] ∧ '-' ∉ m ∧ '_' ∉ m ∧ wsFree m)
    (hs : s ≠ [] ∧ '-' ∉ s ∧ '_' ∉ s ∧ wsFree s)
    (hp : '_' ∉ p ∧ wsFree p) :
    FolderUtils.parse_folder_name (t ++ '-' :: (m ++ '-' :: (s ++ '_' :: p))) =
      some (Processor.parse_folder_name (t ++ '-' :: (m ++ '-' :: (s ++ '_' :: p)))) := by
  have hdash : pyIsSpace '-' = false := by decide
  have hund : pyIsSpace '_' = false := by decide
  have hassoc : t ++ '-' :: (m ++ '-' :: (s ++ '_' :: p)) =
      (t ++ '-' :: (m ++ '-' :: s)) ++ '_' :: p := by simp
  have hstab : ∀ u ∈ [t, m, s], pyStrip u = u := by
    intro u hu
    rcases List.mem_cons.mp hu with h | h
    · exact h ▸ pyStrip_of_wsFree ht.2.2.2
    · rcases List.mem_cons.mp h with h' | h'
      · exact h' ▸ pyStrip_of_wsFree hm.2.2.2
      · rcases List.mem_cons.mp h' with h'' | h''
        · exact h'' ▸ pyStrip_of_wsFree hs.2.2.2
        · simp at h''
  have hcore : FolderUtils.parse_folder_name
      (t ++ '-' :: (m ++ '-' :: (s ++ '_' :: p))) =
      some ⟨t, m, s, parsePyFloat p⟩ := by
    rw [hassoc, FolderUtils.parse_eq_of_lastSplit_some (lastSplit_append hp.1)]
    have hleft : FolderUtils.parseLeft (t ++ '-' :: (m ++ '-' :: s)) =
        some (t, m, s) := by
      unfold FolderUtils.parseLeft
      rw [pySplit_append ht.2.1, pySplit_append hm.2.1, pySplit_of_not_mem hs.2.1]
      unfold FolderUtils.cleanTokens
      rw [map_pyStrip_of_stable hstab]
      rw [List.filter_eq_self.mpr (by
        intro u hu
        rcases List.mem_cons.mp hu with h | h
        · simp [h, ht.1]
        · rcases List.mem_cons.mp h with h' | h'
          · simp [h', hm.1]
          · rcases List.mem_cons.mp h' with h'' | h''
            · simp [h'', hs.1]
            · simp at h'')]
      rfl
    rw [hleft, Option.map_some', parsePyFloat_pyStrip]
  have hwsname : wsFree (t ++ '-' :: (m ++ '-' :: (s ++ '_' :: p))) :=
    wsFree_append ht.2.2.2 (wsFree_cons hdash (wsFree_append hm.2.2.2
      (wsFree_cons hdash (wsFree_append hs.2.2.2 (wsFree_cons hund hp.2)))))
  have hsplit2 : pySplit2 '-' (t ++ '-' :: (m ++ '-' :: s)) = [t, m, s] := by
    simp only [pySplit2, splitFirst_append ht.2.1, splitFirst_append hm.2.1]
  have hproc : Processor.parse_folder_name
      (t ++ '-' :: (m ++ '-' :: (s ++ '_' :: p))) =
      ⟨t, m, s, parsePyFloat p⟩ := by
    have hls : lastSplit '_'
        (pyStrip (t ++ '-' :: (m ++ '-' :: (s ++ '_' :: p)))) =
        some (t ++ '-' :: (m ++ '-' :: s), p) := by
      rw [pyStrip_of_wsFree hwsname, hassoc]
      exact lastSplit_append hp.1
    rw [Processor.parse_eq_of_strip_lastSplit_some hls, hsplit2]
    rw [show ([t, m, s] : List PyStr).getD 0 [] = t from rfl,
      show ([t, m, s] : List PyStr).getD 1 [] = m from rfl,
      show ([t, m, s] : List PyStr).getD 2 [] = s from rfl]
    rw [pyStrip_of_wsFree ht.2.2.2, pyStrip_of_wsFree hm.2.2.2,
      pyStrip_of_wsFree hs.2.2.2]
  rw [hcore, hproc]

/-- C10 witness: on the spec's first scenario name
`earring-driedflower-forestseries_25` the two parsers agree, via `claim_C10`. -/
theorem claim_C10_witness :
    FolderUtils.parse_folder_name "earring-driedflower-forestseries_25".toList =
      some (Processor.parse_folder_name "earring-driedflower-forestseries_25".toList) :=
  claim_C10 "earring".toList "driedflower".toList "forestseries".toList "25".toList
    (by decide) (by decide) (by decide) (by decide)

/-- C10 counterexample: on the single-token name `hello` the two parsers
disagree: `core/folder_utils` classifies the lone token as `series`, while
`pipeline/processor` classifies it as `product_type`. -/
theorem claim_C10_counterexample :
    FolderUtils.parse_folder_name "hello".toList ≠
      some (Processor.parse_folder_name "hello".toList) := by
  decide

/-! Character case mapping (Python `str.lower()` restricted to ASCII). -/

theorem toNat_charOfNat {n : Nat} (h : n.isValidChar) : (Char.ofNat n).toNat = n := by
  unfold Char.ofNat
  rw [dif_pos h]
  rfl

theorem toLower_toLower (c : Char) : Char.toLower (Char.toLower c) = Char.toLower c := by
  unfold Char.toLower
  by_cases h : c.toNat ≥ 65 ∧ c.toNat ≤ 90
  · rw [if_pos h]
    have hv : (c.toNat + 32).isValidChar := Or.inl (by omega)
    rw [if_neg]
    rw [toNat_charOfNat hv]
    omega
  · rw [if_neg h, if_neg h]

theorem pyIsSpace_toLower (c : Char) : pyIsSpace (Char.toLower c) = pyIsSpace c := by
  unfold Char.toLower
  by_cases h : c.toNat ≥ 65 ∧ c.toNat ≤ 90
  · rw [if_pos h]
    have hv : (c.toNat + 32).isValidChar := Or.inl (by omega)
    unfold pyIsSpace
    rw [toNat_charOfNat hv]
    rw [decide_eq_false (by omega), decide_eq_false (by omega)]
  · rw [if_neg h]

/-- Python `str.lower()`, modelled per character by `Char.toLower`
(ASCII letters only, which covers every claim input). -/
def lowerStr (s : PyStr) : PyStr := s.map Char.toLower

theorem lowerStr_lowerStr (s : PyStr) : lowerStr (lowerStr s) = lowerStr s := by
  unfold lowerStr
  rw [List.map_map]
  exact List.map_congr_left (fun c _ => toLower_toLower c)

theorem pyStrip_lowerStr (s : PyStr) :
    pyStrip (lowerStr s) = lowerStr (pyStrip s) := by
  have hfun : pyIsSpace ∘ Char.toLower = pyIsSpace := funext pyIsSpace_toLower
  unfold pyStrip lowerStr
  rw [List.dropWhile_map, hfun, ← List.map_reverse, List.dropWhile_map, hfun,
    ← List.map_reverse]

theorem normTag_stable (t : PyStr) :
    lowerStr (pyStrip (lowerStr (pyStrip t))) = lowerStr (pyStrip t) := by
  rw [pyStrip_lowerStr, pyStrip_pyStrip, lowerStr_lowerStr]

/-! The product normalizer (`core/product_normalizer.py`). -/

/-- The Chinese-to-English material lookup table `MATERIALS_MAPPING`
(product_normalizer.py lines 13-30). -/
def MATERIALS_MAPPING : List (PyStr × PyStr) :=
  [("白芷".toList, "white angelica root".toList),
   ("甘草".toList, "licorice root".toList),
   ("松果".toList, "pine cone".toList),
   ("桉树果".toList, "eucalyptus pod".toList),
   ("五眼果".toList, "five-eye fruit".toList),
   ("白五眼果".toList, "white five-eye fruit".toList),
   ("黑五眼果".toList, "black five-eye fruit".toList),
   ("松针".toList, "pine needle".toList),
   ("银杏叶".toList, "ginkgo leaf".toList),
   ("枫叶".toList, "maple leaf".toList),
   ("树脂".toList, "resin".toList),
   ("合金".toList, "alloy".toList),
   ("金属".toList, "metal".toList),
   ("银".toList, "silver".toList),
   ("金".toList, "gold".toList),
   ("铜".toList, "copper".toList)]

/-- `translate_material` (product_normalizer.py lines 33-38): strip, then look
the name up in the table; unmapped names pass through unchanged. -/
def translate_material (chinese_name : PyStr) : PyStr :=
  let t := pyStrip chinese_name
  (MATERIALS_MAPPING.lookup t).getD t

/-- One step of `re.sub(r'\s+', ' ', title)` (product_normalizer.py line 51):
replace every maximal whitespace run by a single space. -/
def collapseWs : List Char → List Char
  | [] => []
  | c :: rest =>
    if pyIsSpace c then ' ' :: collapseWs (rest.dropWhile pyIsSpace)
    else c :: collapseWs rest
termination_by s => s.length
decreasing_by
  · have h : (rest.dropWhile pyIsSpace).length ≤ rest.length :=
      List.Sublist.length_le (List.dropWhile_sublist pyIsSpace)
    simp only [List.length_cons]
    omega
  · simp only [List.length_cons]
    omega

/-- `clean_title` (product_normalizer.py lines 41-59): collapse whitespace,
strip, and capitalize the first character. -/
def clean_title (title : PyStr) : PyStr :=
  if title = [] then []
  else
    match pyStrip (collapseWs title) with
    | [] => []
    | c :: rest => Char.toUpper c :: rest

/-- Loop body of `clean_tags` (product_normalizer.py lines 74-82): normalize
each tag (strip + lower), keep it when non-empty and unseen (the Python `seen`
set always equals the set of entries of `cleaned`), and stop as soon as the
output reaches `maxCount` entries (the length test runs after the append). -/
def cleanTagsAux (maxCount : Nat) : List PyStr → List PyStr → List PyStr
  | [], cleaned => cleaned
  | t :: rest, cleaned =>
    let tag := lowerStr (pyStrip t)
    if tag ≠ [] ∧ tag ∉ cleaned then
      if maxCount ≤ cleaned.length + 1 then cleaned ++ [tag]
      else cleanTagsAux maxCount rest (cleaned ++ [tag])
    else cleanTagsAux maxCount rest cleaned

/-- `clean_tags` (product_normalizer.py lines 62-84).  The `max_count`
parameter defaults to 13 in the source; every call site passes 13. -/
def clean_tags (tags : List PyStr) (maxCount : Nat) : List PyStr :=
  cleanTagsAux maxCount tags []

/-- Separator class of `re.split(r'[-,\s]+', raw)`
(product_normalizer.py line 107). -/
def isMatSep (c : Char) : Bool := c = '-' || c = ',' || pyIsSpace c

/-- Python `re.split` on runs of separator characters: each maximal run of
separators ends a piece (empty boundary pieces included, as `re.split`
produces them). -/
def splitRuns (p : Char → Bool) : List Char → List PyStr
  | [] => [[]]
  | c :: rest =>
    if p c then [] :: splitRuns p (rest.dropWhile p)
    else
      match splitRuns p rest with
      | [] => [[c]]
      | t :: ts => (c :: t) :: ts
termination_by s => s.length
decreasing_by
  · have h : (rest.dropWhile p).length ≤ rest.length :=
      List.Sublist.length_le (List.dropWhile_sublist p)
    simp only [List.length_cons]
    omega
  · simp only [List.length_cons]
    omega

/-- `core/folder_context.FolderContext` (scalar fields).  The Drive file
metadata fields (`image_files`, `note_file`, `other_files`) are dicts returned
by the Drive client and are read by no claim, so they are not modelled. -/
structure FolderContext where
  folder_id : PyStr
  folder_name : PyStr
  created_time : PyStr
  product_type : PyStr
  raw_materials_str : PyStr
  series : PyStr
  price_from_name : Option PyFloat
  note_text : PyStr
  deriving Repr, DecidableEq

/-- `clean_materials` (product_normalizer.py lines 87-114): translate the
non-empty AI-provided materials, add the translated pieces of the folder-name
materials string split on runs of hyphens/commas/whitespace, collect them in a
set, and return the set sorted ascending.  The Python `set` plus `sorted` is
modelled as `dedup` plus an insertion sort by the lexicographic string
order. -/
def clean_materials (materials : List PyStr) (folder_ctx : FolderContext) :
    List PyStr :=
  let fromAI := (materials.filter (fun m => m ≠ [])).map
    (fun m => translate_material (pyStrip m))
  let fromFolder :=
    if folder_ctx.raw_materials_str ≠ [] then
      (((splitRuns isMatSep folder_ctx.raw_materials_str).map pyStrip).filter
        (fun m => m ≠ [])).map translate_material
    else []
  List.insertionSort (· ≤ ·) (fromAI ++ fromFolder).dedup

/-- The fixed care-instructions block of `build_description`
(product_normalizer.py lines 130-138), already stripped. -/
def careInstructionsBlock : PyStr :=
  ("Care Instructions:\n- Store in a dry place away from direct sunlight\n- Avoid contact with water and chemicals\n- Clean gently with a soft, dry cloth\n- Handle with care as botanical materials are delicate").toList

/-- `build_description` (product_normalizer.py lines 117-140): the stripped AI
description (when non-empty) and the care-instructions block, joined by a
blank line. -/
def build_description (ai_description : PyStr) (_folder_ctx : FolderContext) :
    PyStr :=
  if ai_description ≠ [] then
    pyStrip ai_description ++ "\n\n".toList ++ careInstructionsBlock
  else careInstructionsBlock

/-- The AI draft JSON read by `normalize_product`, typed per the response
contract (spec section 6).  Fields the code reads with a `None` default are
`Option`; fields it reads with `""`/`[]` defaults are plain (a JSON `null` and
a missing key behave identically through `.get` + truthiness, so both map to
the default). -/
structure AIJson where
  title : PyStr
  description : PyStr
  short_description : PyStr
  price : Option PyFloat
  currency : Option PyStr
  quantity : Option Int
  tags : List PyStr
  materials : List PyStr
  colors : List PyStr
  style : PyStr
  product_type : PyStr
  category : PyStr
  series : PyStr
  who_made : Option PyStr
  when_made : Option PyStr
  id_from_drive : Option PyStr
  deriving Repr, DecidableEq

/-- `core/product_schema.ProductDraft`, restricted to the fields that
`normalize_product` passes to the constructor (the remaining dataclass fields
keep their defaults and are read by no claim). -/
structure ProductDraft where
  id : PyStr
  title : PyStr
  description : PyStr
  short_description : PyStr
  price : PyFloat
  currency : PyStr
  quantity : Int
  tags : List PyStr
  materials : List PyStr
  colors : List PyStr
  style : PyStr
  product_type : PyStr
  category : PyStr
  series : PyStr
  brand_name : PyStr
  care_instructions : PyStr
  handmade : Bool
  made_to_order : Bool
  who_made : PyStr
  when_made : PyStr
  raw_ai_json : AIJson
  notes : PyStr
  deriving Repr, DecidableEq

/-- Python `x or y` on strings (empty string and `None` are falsy). -/
def pyOrStr (a b : PyStr) : PyStr := if a ≠ [] then a else b

/-- Python `x or y` where `x` is a float-or-`None` (`None` and `0.0` are
falsy). -/
def pyOrFloat (o : Option PyFloat) (d : PyFloat) : PyFloat :=
  match o with
  | none => d
  | some q => if q.num = 0 then d else q

/-- `normalize_product` (product_normalizer.py lines 143-229). -/
def normalize_product (ai_json : AIJson) (folder_ctx : FolderContext) :
    ProductDraft :=
  let product_type := pyOrStr ai_json.product_type (pyOrStr folder_ctx.product_type [])
  let series := pyOrStr ai_json.series (pyOrStr folder_ctx.series [])
  let price :=
    match ai_json.price with
    | none => pyOrFloat folder_ctx.price_from_name ⟨0, 1⟩
    | some p => if p.num ≤ 0 then pyOrFloat folder_ctx.price_from_name ⟨0, 1⟩ else p
  let title0 := clean_title ai_json.title
  let title := if title0 = [] then folder_ctx.folder_name else title0
  let description := build_description ai_json.description folder_ctx
  let sd0 := pyStrip ai_json.short_description
  let short_description := if sd0 = [] then title else sd0
  let tags := clean_tags ai_json.tags 13
  let materials := clean_materials ai_json.materials folder_ctx
  let colors := (ai_json.colors.filter (fun c => pyStrip c ≠ [])).map
    (fun c => lowerStr (pyStrip c))
  { id := (ai_json.id_from_drive).getD folder_ctx.folder_id
    title := title
    description := description
    short_description := short_description
    price := price
    currency := (ai_json.currency).getD "USD".toList
    quantity := (ai_json.quantity).getD 1
    tags := tags
    materials := materials
    colors := colors
    style := pyStrip ai_json.style
    product_type := product_type
    category := pyOrStr ai_json.category (pyOrStr product_type [])
    series := series
    brand_name := "Wu Essence".toList
    care_instructions := ("Store in a dry place away from direct sunlight. Avoid contact with water and chemicals.").toList
    handmade := true
    made_to_order := true
    who_made := (ai_json.who_made).getD "i_did".toList
    when_made := (ai_json.when_made).getD "made_to_order".toList
    raw_ai_json := ai_json
    notes := folder_ctx.note_text }

/-! Deduplication keeping first occurrences (specification-side helper for
the tag-cleaning claims: the code's seen-set loop keeps the first occurrence
of each tag). -/

def dedupFirst : List PyStr → List PyStr
  | [] => []
  | x :: xs => x :: dedupFirst (xs.filter (fun y => y ≠ x))
termination_by l => l.length
decreasing_by
  simp only [List.length_cons]
  exact Nat.lt_succ_of_le (List.length_filter_le _ _)

theorem dedupFirst_nil : dedupFirst [] = [] := by
  rw [dedupFirst.eq_def]

theorem dedupFirst_cons (x : PyStr) (xs : List PyStr) :
    dedupFirst (x :: xs) = x :: dedupFirst (xs.filter (fun y => y ≠ x)) := by
  rw [dedupFirst.eq_def]

theorem dedupFirst_subset_aux :
    ∀ (n : Nat) (l : List PyStr), l.length ≤ n → ∀ x ∈ dedupFirst l, x ∈ l := by
  intro n
  induction n with
  | zero =>
    intro l hl x hx
    rw [List.length_eq_zero.mp (Nat.le_zero.mp hl), dedupFirst_nil] at hx
    simp at hx
  | succ n ih =>
    intro l hl x hx
    cases l with
    | nil =>
      rw [dedupFirst_nil] at hx
      simp at hx
    | cons y ys =>
      rw [dedupFirst_cons] at hx
      rcases List.mem_cons.mp hx with h | h
      · exact h ▸ List.mem_cons_self _ _
      · have hlen : (ys.filter (fun z => z ≠ y)).length ≤ n := by
          have h1 := List.length_filter_le (fun z => z ≠ y) ys
          have h2 : ys.length + 1 ≤ n + 1 := by simpa using hl
          omega
        exact List.mem_cons_of_mem _ (List.mem_of_mem_filter (ih _ hlen x h))

theorem dedupFirst_subset {l : List PyStr} {x : PyStr} (hx : x ∈ dedupFirst l) :
    x ∈ l :=
  dedupFirst_subset_aux l.length l (Nat.le_refl _) x hx

theorem dedupFirst_nodup_aux :
    ∀ (n : Nat) (l : List PyStr), l.length ≤ n → (dedupFirst l).Nodup := by
  intro n
  induction n with
  | zero =>
    intro l hl
    rw [List.length_eq_zero.mp (Nat.le_zero.mp hl), dedupFirst_nil]
    exact List.nodup_nil
  | succ n ih =>
    intro l hl
    cases l with
    | nil => rw [dedupFirst_nil]; exact List.nodup_nil
    | cons y ys =>
      rw [dedupFirst_cons]
      have hlen : (ys.filter (fun z => z ≠ y)).length ≤ n := by
        have h1 := List.length_filter_le (fun z => z ≠ y) ys
        have h2 : ys.length + 1 ≤ n + 1 := by simpa using hl
        omega
      refine List.nodup_cons.mpr ⟨fun hmem => ?_, ih _ hlen⟩
      have := List.of_mem_filter (dedupFirst_subset hmem)
      simp at this

theorem dedupFirst_nodup (l : List PyStr) : (dedupFirst l).Nodup :=
  dedupFirst_nodup_aux l.length l (Nat.le_refl _)

/-! The normal form of `clean_tags`: normalize, drop empties, deduplicate
keeping first occurrences, truncate. -/

theorem cleanTagsAux_eq (max : Nat) (tags : List PyStr) :
    ∀ (acc : List PyStr), acc.length < max →
      cleanTagsAux max tags acc =
        acc ++ (dedupFirst (((tags.map (fun t => lowerStr (pyStrip t))).filter
          (· ≠ [])).filter (· ∉ acc))).take (max - acc.length) := by
  induction tags with
  | nil =>
    intro acc _
    simp [cleanTagsAux, dedupFirst_nil]
  | cons t rest ih =>
    intro acc hacc
    simp only [cleanTagsAux, List.map_cons]
    by_cases h1 : lowerStr (pyStrip t) ≠ [] ∧ lowerStr (pyStrip t) ∉ acc
    · rw [if_pos h1]
      rw [List.filter_cons_of_pos (by simpa using h1.1),
        List.filter_cons_of_pos (by simpa using h1.2),
        dedupFirst_cons]
      by_cases h2 : max ≤ acc.length + 1
      · rw [if_pos h2]
        rw [show max - acc.length = 1 from by omega]
        rw [List.take_succ_cons, List.take_zero]
      · rw [if_neg h2]
        rw [ih (acc ++ [lowerStr (pyStrip t)])
          (by simp only [List.length_append, List.length_cons, List.length_nil]; omega)]
        have hfeq : ((rest.map (fun u => lowerStr (pyStrip u))).filter
              (· ≠ [])).filter (· ∉ acc ++ [lowerStr (pyStrip t)]) =
            (((rest.map (fun u => lowerStr (pyStrip u))).filter
              (· ≠ [])).filter (· ∉ acc)).filter (· ≠ lowerStr (pyStrip t)) := by
          rw [List.filter_filter, List.filter_filter, List.filter_filter]
          refine List.filter_congr ?_
          intro x _
          by_cases hx1 : x ∈ acc <;> by_cases hx2 : x = lowerStr (pyStrip t) <;>
            simp [hx1, hx2, List.mem_append]
        rw [hfeq]
        rw [show max - acc.length = (max - acc.length - 1) + 1 from by omega,
          List.take_succ_cons]
        simp only [List.length_append, List.length_cons, List.length_nil,
          List.append_assoc, List.singleton_append]
        rw [show max - (acc.length + (0 + 1)) = max - acc.length - 1 from by omega]
    · rw [if_neg h1]
      rw [ih acc hacc]
      rcases not_and_or.mp h1 with h | h
      · rw [List.filter_cons_of_neg (by simp [not_ne_iff.mp h])]
      · have hm : lowerStr (pyStrip t) ∈ acc := not_not.mp h
        by_cases he : lowerStr (pyStrip t) = []
        · rw [List.filter_cons_of_neg (by simp [he])]
        · rw [List.filter_cons_of_pos (by simpa using he),
            List.filter_cons_of_neg (by simpa using hm)]

theorem clean_tags_normal (tags : List PyStr) :
    clean_tags tags 13 =
      (dedupFirst ((tags.map (fun t => lowerStr (pyStrip t))).filter
        (· ≠ []))).take 13 := by
  have h := cleanTagsAux_eq 13 tags [] (by simp)
  simpa using h

theorem cleanTagsAux_id (max : Nat) :
    ∀ (l acc : List PyStr),
      (∀ t ∈ l, lowerStr (pyStrip t) = t ∧ t ≠ []) →
      (acc ++ l).Nodup → (acc ++ l).length ≤ max →
      cleanTagsAux max l acc = acc ++ l := by
  intro l
  induction l with
  | nil =>
    intro acc _ _ _
    simp [cleanTagsAux]
  | cons t rest ih =>
    intro acc hgood hnodup hlen
    have hgt := hgood t (List.mem_cons_self _ _)
    simp only [cleanTagsAux]
    rw [hgt.1]
    have htacc : t ∉ acc := fun hmem =>
      (List.disjoint_of_nodup_append hnodup) hmem (List.mem_cons_self _ _)
    rw [if_pos ⟨hgt.2, htacc⟩]
    have hlen' : acc.length + (rest.length + 1) ≤ max := by
      simpa [List.length_append] using hlen
    by_cases h2 : max ≤ acc.length + 1
    · rw [if_pos h2]
      have hrl : rest = [] := List.length_eq_zero.mp (by omega)
      rw [hrl]
    · rw [if_neg h2]
      have hassoc : (acc ++ [t]) ++ rest = acc ++ t :: rest := by simp
      rw [ih (acc ++ [t]) (fun u hu => hgood u (List.mem_cons_of_mem _ hu))
        (by rw [hassoc]; exact hnodup) (by rw [hassoc]; exact hlen), hassoc]

/-- C4: `clean_tags` (at the Etsy limit 13 used by every call site) is
idempotent; its output has length at most 13; every entry is non-empty,
trimmed and lowercase; there are no duplicates; and the output is exactly the
normalized input with empties dropped, deduplicated keeping first
occurrences, truncated to 13 — so entries appear in order of first
occurrence in the input. -/
theorem claim_C4 (tags : List PyStr) :
    clean_tags (clean_tags tags 13) 13 = clean_tags tags 13 ∧
      (clean_tags tags 13).length ≤ 13 ∧
      (∀ t ∈ clean_tags tags 13, t ≠ [] ∧ pyStrip t = t ∧ lowerStr t = t) ∧
      (clean_tags tags 13).Nodup ∧
      clean_tags tags 13 =
        (dedupFirst ((tags.map (fun t => lowerStr (pyStrip t))).filter
          (· ≠ []))).take 13 := by
  have hnf := clean_tags_normal tags
  have hmem : ∀ t ∈ clean_tags tags 13, lowerStr (pyStrip t) = t ∧ t ≠ [] := by
    intro t ht
    rw [hnf] at ht
    have h1 := (List.take_sublist _ _).subset ht
    have h2 := dedupFirst_subset h1
    have h3 : t ∈ tags.map fun u => lowerStr (pyStrip u) :=
      List.mem_of_mem_filter h2
    have h4 := List.of_mem_filter h2
    obtain ⟨u, _, hut⟩ := List.mem_map.mp h3
    exact ⟨by rw [← hut]; exact normTag_stable u, by simpa using h4⟩
  have hnodup : (clean_tags tags 13).Nodup := by
    rw [hnf]
    exact List.Nodup.sublist (List.take_sublist _ _) (dedupFirst_nodup _)
  have hlen13 : (clean_tags tags 13).length ≤ 13 := by
    rw [hnf]
    exact List.length_take_le _ _
  refine ⟨?_, hlen13, ?_, hnodup, hnf⟩
  · have h := cleanTagsAux_id 13 (clean_tags tags 13) [] (fun t ht => hmem t ht)
      (by simpa using hnodup) (by simpa using hlen13)
    simpa [clean_tags] using h
  · intro t ht
    obtain ⟨h1, h2⟩ := hmem t ht
    refine ⟨h2, ?_, ?_⟩
    · conv_lhs => rw [← h1]
      rw [pyStrip_lowerStr, pyStrip_pyStrip, h1]
    · conv_lhs => rw [← h1]
      rw [lowerStr_lowerStr, h1]

/-- C3 (amended): for every list of AI-provided material strings and every
folder context, `clean_materials` returns a list that is sorted ascending
(lexicographically by code point, as Python `sorted` does on strings) and has
no duplicate entries under exact string comparison.  The deduplication is the
Python `set`, which is case-sensitive; see the counterexample for the
case-insensitive reading. -/
theorem claim_C3 (materials : List PyStr) (folder_ctx : FolderContext) :
    List.Sorted (· ≤ ·) (clean_materials materials folder_ctx) ∧
      (clean_materials materials folder_ctx).Nodup := by
  unfold clean_materials
  refine ⟨List.sorted_insertionSort _ _, ?_⟩
  exact ((List.perm_insertionSort _ _).nodup_iff).mpr (List.nodup_dedup _)

/-- A folder context with every field empty (price unparsed, no materials in
the folder name). -/
def emptyFolderContext : FolderContext := ⟨[], [], [], [], [], [], none, []⟩

/-- C3 counterexample: on the AI materials `["Resin", "resin"]` (both
untranslatable, so they pass through unchanged) the output keeps both
spellings — two entries that are equal under case-insensitive comparison —
refuting the claim's "no duplicates case-insensitively" as stated. -/
theorem claim_C3_counterexample :
    clean_materials ["Resin".toList, "resin".toList] emptyFolderContext =
        ["Resin".toList, "resin".toList] ∧
      ¬ List.Pairwise (fun a b : PyStr => lowerStr a ≠ lowerStr b)
        (clean_materials ["Resin".toList, "resin".toList] emptyFolderContext) := by
  refine ⟨?_, ?_⟩
  · decide
  · decide

/-- The price-merge rule exactly as the spec states it (claim C5): the AI
value when present and strictly positive, else the folder-parsed price when
present, else 0 — stated on rational values. -/
def specPrice (aiPrice folderPrice : Option PyFloat) : ℚ :=
  match aiPrice with
  | some p =>
    if 0 < p.val then p.val
    else
      match folderPrice with
      | some q => q.val
      | none => 0
  | none =>
    match folderPrice with
    | some q => q.val
    | none => 0

/-- C5: for every AI draft whose price field is a well-formed float
(positive denominator, as every Python float is) and every folder context,
the price of the `ProductDraft` produced by `normalize_product` is the AI
price when present and strictly greater than 0, otherwise the folder-parsed
price when present, otherwise 0. -/
theorem claim_C5 (ai_json : AIJson) (folder_ctx : FolderContext)
    (hai : ∀ p, ai_json.price = some p → 0 < p.den) :
    ((normalize_product ai_json folder_ctx).price).val =
      specPrice ai_json.price folder_ctx.price_from_name := by
  have hsign : ∀ r : PyFloat, 0 < r.den → (0 < r.val ↔ 0 < r.num) := by
    intro r hden
    unfold PyFloat.val
    rw [div_pos_iff]
    constructor
    · rintro (⟨h1, _⟩ | ⟨_, h2⟩)
      · exact_mod_cast h1
      · exfalso
        have hq : (0 : ℚ) < (r.den : ℚ) := by exact_mod_cast hden
        linarith
    · intro h
      exact Or.inl ⟨by exact_mod_cast h, by exact_mod_cast hden⟩
  have hfold : (pyOrFloat folder_ctx.price_from_name ⟨0, 1⟩).val =
      (match folder_ctx.price_from_name with
        | some q => q.val
        | none => (0 : ℚ)) := by
    cases hq : folder_ctx.price_from_name with
    | none => simp [pyOrFloat, PyFloat.val]
    | some q =>
      simp only [pyOrFloat]
      by_cases hz : q.num = 0
      · rw [if_pos hz]
        simp [PyFloat.val, hz]
      · rw [if_neg hz]
  have hpr : (normalize_product ai_json folder_ctx).price =
      (match ai_json.price with
        | none => pyOrFloat folder_ctx.price_from_name ⟨0, 1⟩
        | some p =>
          if p.num ≤ 0 then pyOrFloat folder_ctx.price_from_name ⟨0, 1⟩
          else p) := rfl
  rw [hpr]
  cases hp : ai_json.price with
  | none => simpa [specPrice] using hfold
  | some p =>
    simp only [specPrice]
    have hd := hai p hp
    by_cases hle : p.num ≤ 0
    · rw [if_pos hle, if_neg (by rw [hsign p hd]; omega)]
      exact hfold
    · rw [if_neg hle, if_pos ((hsign p hd).mpr (by omega))]

/-- The C5 scenario AI draft: every field absent except `price = 0`. -/
def aiScenario : AIJson :=
  ⟨[], [], [], some ⟨0, 1⟩, none, none, [], [], [], [], [], [], [], none, none, none⟩

/-- The C5 scenario folder context: folder-parsed price 25. -/
def ctxScenario : FolderContext := ⟨[], [], [], [], [], [], some ⟨25, 1⟩, []⟩

/-- C5 witness: the AI returns price 0 and the folder-parsed price is 25.0,
so the final `ProductDraft` price is 25.0, via `claim_C5`. -/
theorem claim_C5_witness :
    ((normalize_product aiScenario ctxScenario).price).val = 25 := by
  have h := claim_C5 aiScenario ctxScenario
    (fun p hp => by
      rw [← Option.some.inj hp]
      decide)
  rw [h]
  simp [specPrice, PyFloat.val, aiScenario, ctxScenario]

/-! The state store (`core/state_store.py`) and the loader
(`pipeline/loader.py`). -/

/-- JSON values (the state document and the per-folder records are arbitrary
JSON; objects are key-value lists in document order). -/
inductive PyJson where
  | null
  | bool (b : Bool)
  | num (q : PyFloat)
  | str (s : PyStr)
  | arr (xs : List PyJson)
  | obj (kvs : List (PyStr × PyJson))

instance : Inhabited PyJson := ⟨.null⟩

/-- First-match lookup in a JSON object's key-value list (Python dict
access; dict keys are unique in documents produced by `json`). -/
def assocFind : List (PyStr × PyJson) → PyStr → Option PyJson
  | [], _ => none
  | (k', v) :: rest, k => if k' = k then some v else assocFind rest k

/-- Python dict assignment `d[k] = v`: replace the value in place when the
key exists (keeping insertion order), else append the new pair. -/
def assocSet : List (PyStr × PyJson) → PyStr → PyJson → List (PyStr × PyJson)
  | [], k, v => [(k, v)]
  | (k', v') :: rest, k, v =>
    if k' = k then (k, v) :: rest else (k', v') :: assocSet rest k v

/-- `core/state_store.StateStore`: the in-memory `_state`, restricted to its
`folders` mapping (the code preserves unknown top-level keys, which no claim
touches, so they are not modelled). -/
structure StateStore where
  folders : List (PyStr × PyJson)

/-- Outcome of reading the backing file in `StateStore._load`: the file does
not exist; opening/`json.load`/the `folders`-key fixup raised; or the
document parsed. -/
inductive LoadOutcome where
  | missing
  | unreadable
  | parsed (doc : PyJson)

/-- The `folders` mapping of a parsed document, per the `_load` fixup
(state_store.py lines 39-41): a missing `folders` key is replaced by an empty
dict; a non-dict top level makes the membership test or the item assignment
raise (caught by the handler, giving `none` here).  A `folders` key holding a
non-object is kept raw by the code and reached by no claim; it is mapped to
the reinitialized store here. -/
def foldersOfDoc : PyJson → Option (List (PyStr × PyJson))
  | .obj kvs =>
    match assocFind kvs "folders".toList with
    | some (.obj fs) => some fs
    | some _ => none
    | none => some []
  | _ => none

/-- `StateStore._load` (state_store.py lines 34-47) as a function of the read
outcome: a missing file and any raising read both reinitialize to the empty
mapping. -/
def StateStore.load : LoadOutcome → StateStore
  | .missing => ⟨[]⟩
  | .unreadable => ⟨[]⟩
  | .parsed doc =>
    match foldersOfDoc doc with
    | some fs => ⟨fs⟩
    | none => ⟨[]⟩

/-- `StateStore.get_processed_folder_ids` (state_store.py lines 55-57): every
folder id with any record, regardless of status.  The Python `set` is
modelled as the key list (used only through membership). -/
def StateStore.get_processed_folder_ids (s : StateStore) : List PyStr :=
  s.folders.map (fun kv => kv.1)

/-- `StateStore.get_folder_record` (state_store.py lines 59-60): the record
under the id, or the empty dict. -/
def StateStore.get_folder_record (s : StateStore) (folder_id : PyStr) : PyJson :=
  (assocFind s.folders folder_id).getD (.obj [])

/-- `StateStore.mark_folder_status` (state_store.py lines 62-80): store a
fresh `{name, status, platforms or {}}` record under the id, replacing
whatever was there. -/
def StateStore.mark_folder_status (s : StateStore)
    (folder_id name status : PyStr)
    (platforms : Option (List (PyStr × PyJson))) : StateStore :=
  ⟨assocSet s.folders folder_id (.obj
    [("name".toList, .str name), ("status".toList, .str status),
      ("platforms".toList, .obj (platforms.getD []))])⟩

/-- Folder metadata as listed by the Drive client (`id`, `name`,
`createdTime`). -/
structure FolderMeta where
  id : PyStr
  name : PyStr
  createdTime : PyStr
  deriving Repr, DecidableEq

/-- `pipeline/loader.find_new_product_folders` (loader.py lines 10-35), as a
function of the Drive listing (external collaborator) and the loaded state:
keep exactly the listed folders whose id has no record. -/
def find_new_product_folders (all_folders : List FolderMeta)
    (state : StateStore) : List FolderMeta :=
  all_folders.filter (fun f => f.id ∉ state.get_processed_folder_ids)

theorem assocFind_eq_none_iff (kvs : List (PyStr × PyJson)) (k : PyStr) :
    assocFind kvs k = none ↔ k ∉ kvs.map (fun kv => kv.1) := by
  induction kvs with
  | nil => simp [assocFind]
  | cons kv rest ih =>
    obtain ⟨k', v⟩ := kv
    by_cases h : k' = k
    · simp [assocFind, h]
    · have h2 : ¬ k = k' := fun e => h e.symm
      simp [assocFind, h, ih, h2]

theorem assocFind_assocSet_self (kvs : List (PyStr × PyJson)) (k : PyStr)
    (v : PyJson) : assocFind (assocSet kvs k v) k = some v := by
  induction kvs with
  | nil => simp [assocSet, assocFind]
  | cons kv rest ih =>
    obtain ⟨k', v'⟩ := kv
    by_cases h : k' = k
    · simp [assocSet, assocFind, h]
    · simp [assocSet, assocFind, h, ih]

theorem assocFind_assocSet_ne (kvs : List (PyStr × PyJson)) (k : PyStr)
    (v : PyJson) (k' : PyStr) (hne : k' ≠ k) :
    assocFind (assocSet kvs k v) k' = assocFind kvs k' := by
  have hkk : ¬ k = k' := fun e => hne e.symm
  induction kvs with
  | nil => simp [assocSet, assocFind, hkk]
  | cons kv rest ih =>
    obtain ⟨k0, v0⟩ := kv
    by_cases h : k0 = k
    · simp [assocSet, assocFind, h, hkk]
    · simp [assocSet, assocFind, h, ih]

/-- C6: for every state-store content and every Drive listing, the loader's
new-folders result is exactly the listed folders whose id has no record in
the store — a folder with a record of any status (`pending`, `success` or
`failed` alike, since the filter never reads the record) is excluded. -/
theorem claim_C6 (state : StateStore) (all_folders : List FolderMeta) :
    find_new_product_folders all_folders state =
      all_folders.filter (fun f => (assocFind state.folders f.id).isNone) := by
  unfold find_new_product_folders
  refine List.filter_congr ?_
  intro f _
  cases ha : assocFind state.folders f.id with
  | none =>
    simp [StateStore.get_processed_folder_ids,
      (assocFind_eq_none_iff _ _).mp ha]
  | some v =>
    have hmem : f.id ∈ state.folders.map (fun kv => kv.1) := by
      by_contra hc
      rw [(assocFind_eq_none_iff _ _).mpr hc] at ha
      cases ha
    simp [StateStore.get_processed_folder_ids, hmem]

/-- C7: `mark_folder_status` stores exactly the record
`{name, status, platforms or {}}` under the folder id — a full overwrite that
is independent of (and hence discards) whatever record was there — and the
record of every other folder id is unchanged. -/
theorem claim_C7 (state : StateStore) (folder_id name status : PyStr)
    (platforms : Option (List (PyStr × PyJson))) :
    (assocFind (state.mark_folder_status folder_id name status platforms).folders
        folder_id =
      some (.obj [("name".toList, .str name), ("status".toList, .str status),
        ("platforms".toList, .obj (platforms.getD []))])) ∧
      ∀ other_id, other_id ≠ folder_id →
        assocFind (state.mark_folder_status folder_id name status
            platforms).folders other_id =
          assocFind state.folders other_id := by
  exact ⟨assocFind_assocSet_self _ _ _,
    fun other_id hne => assocFind_assocSet_ne _ _ _ _ hne⟩

/-- A store holding a record for folder `f1` with earlier Etsy platforms
metadata, and a record for `f2`. -/
def storeWithEtsy : StateStore :=
  ⟨[("f1".toList, .obj [("name".toList, .str "old".toList),
      ("status".toList, .str "success".toList),
      ("platforms".toList, .obj [("etsy".toList,
        .obj [("listing_id".toList, .str "42".toList)])])]),
    ("f2".toList, .obj [("name".toList, .str "other".toList)])]⟩

/-- C7 witness: re-marking `f1` without platforms wipes its earlier Etsy
metadata (the stored record is exactly the fresh one) and leaves `f2`
untouched, via `claim_C7`. -/
theorem claim_C7_witness :
    (assocFind ((storeWithEtsy.mark_folder_status "f1".toList "n".toList
          "failed".toList none).folders) "f1".toList =
        some (.obj [("name".toList, .str "n".toList),
          ("status".toList, .str "failed".toList),
          ("platforms".toList, .obj [])])) ∧
      assocFind ((storeWithEtsy.mark_folder_status "f1".toList "n".toList
          "failed".toList none).folders) "f2".toList =
        assocFind storeWithEtsy.folders "f2".toList :=
  ⟨(claim_C7 storeWithEtsy "f1".toList "n".toList "failed".toList none).1,
    (claim_C7 storeWithEtsy "f1".toList "n".toList "failed".toList none).2
      "f2".toList (by decide)⟩

/-- C8: when the backing document exists but cannot be read or parsed as
JSON, constructing the `StateStore` does not raise (the modelled load is the
caught-exception branch and is total): the store reinitializes to an empty
folders mapping, the processed-ids set is empty, and every record query
yields the empty record. -/
theorem claim_C8 :
    (StateStore.load .unreadable).folders = [] ∧
      (StateStore.load .unreadable).get_processed_folder_ids = [] ∧
      ∀ folder_id, (StateStore.load .unreadable).get_folder_record folder_id =
        .obj [] :=
  ⟨rfl, rfl, fun _ => rfl⟩
